import Mathlib

/-!
Shallow embedding of `src/neurostack/data_streams/data_stream.py` (class
`DataStream`) and proofs about its channel store, range query, latest-sample
lookup, multi-channel query, ingestion loop and thread start/stop logic.

Modelling conventions:
* Python float timestamps are modelled as `ℚ` (the program only adds and
  compares timestamps, and every concrete value in the spec is dyadic, so
  rational arithmetic is exact for everything proved here).
* A sample `[timestamp, value]` (the two-element Python list built by the
  ingestion loop) is modelled as the pair `Sample = ℚ × Int`.
* `self.channels` is a Python dict (insertion ordered, unique keys); it is
  modelled as an association list `List (String × List Sample)` with
  first-match lookup and in-place update.
* Python exceptions are modelled with `Except PyErr`: `KeyError` from
  `d[k]` on a missing key, `IndexError` from list indexing out of range,
  and `raise Exception(msg)` as `PyErr.exception msg`.
* `print(...)` calls are modelled as a returned list of printed strings.
-/

/-- A timestamped sample: the Python list `[timestamp, value]` built by
`_record_lsl_data_indefinitely` and stored in a channel. -/
abbrev Sample : Type := ℚ × Int

/-- Python exceptions that the embedded code can raise: `KeyError` (dict
subscript on a missing key), `IndexError` (list subscript out of range), and
`Exception(msg)` (the explicit raise in `get_data`). -/
inductive PyErr : Type where
  | keyError (key : String)
  | indexError
  | exception (msg : String)
  deriving DecidableEq, Repr

instance {ε α : Type} [DecidableEq ε] [DecidableEq α] : DecidableEq (Except ε α) :=
  fun x y =>
    match x, y with
    | .error e, .error f => decidable_of_iff (e = f) (by simp)
    | .error _, .ok _ => isFalse (by simp)
    | .ok _, .error _ => isFalse (by simp)
    | .ok a, .ok b => decidable_of_iff (a = b) (by simp)

/-- The state of a `DataStream` object's channel store: `self.channels`, a
dict from channel name to list of samples, as an insertion-ordered
association list. -/
structure DataStream : Type where
  channels : List (String × List Sample)
  deriving DecidableEq, Repr

/-- The store created by `DataStream.__init__`: `self.channels = {}`. -/
def emptyDS : DataStream := ⟨[]⟩

/-- Dict lookup `d.get(k)` / `k in d`: first match in the association list,
`none` when the key is absent. -/
def alookup {α : Type} : List (String × α) → String → Option α
  | [], _ => none
  | (k, v) :: rest, c => if k = c then some v else alookup rest c

/-- In-place `self.channels[channel].append(data)`: append `d` to the value
stored under the first occurrence of key `c`. -/
def aappend : List (String × List Sample) → String → Sample → List (String × List Sample)
  | [], _, _ => []
  | (k, v) :: rest, c, d =>
      if k = c then (k, v ++ [d]) :: rest else (k, v) :: aappend rest c d

/-- `DataStream.add_channel`: if `self.channels.get(name)` is not `None`,
print a duplicate report; otherwise insert an empty channel (dict insertion
appends the new key at the end). Returns the new store and printed lines. -/
def add_channel (ds : DataStream) (name : String) : DataStream × List String :=
  match alookup ds.channels name with
  | some _ => (ds, ["Channel with name " ++ name ++ " already exists"])
  | none => (⟨ds.channels ++ [(name, [])]⟩, [])

/-- `DataStream.list_channels`: `list(self.channels.keys())`. -/
def list_channels (ds : DataStream) : List String := ds.channels.map (fun p => p.1)

/-- `DataStream.add_data`: if the channel exists, append `data` to its list;
otherwise print a missing-channel report and leave the store unchanged.
Returns the new store and the printed lines.  The Python method body has no
raise path, so the return type is total. -/
def add_data (ds : DataStream) (channel : String) (data : Sample) : DataStream × List String :=
  match alookup ds.channels channel with
  | some _ => (⟨aappend ds.channels channel data⟩, [])
  | none => (ds, ["A channel with name " ++ channel ++ " does not exist"])

/-- `add_data` embedded into the exception monad.  The Python method has no
raise statement and cannot propagate an exception, so every call returns
normally; this wrapper makes that fact statable against the spec's claim
that a missing channel raises `ChannelNotFound`. -/
def add_data_exc (ds : DataStream) (channel : String) (data : Sample) :
    Except PyErr (DataStream × List String) :=
  .ok (add_data ds channel data)

/-- The start-index loop of `get_data` (lines 149-154):
`start = 0; while start_time > l[start][0]: start += 1;
 if start == len(l): return []`.
The recursion walks the suffix of the channel starting at absolute index
`idx`.  `l[start]` on an exhausted list raises `IndexError` (this happens
exactly on an empty channel, since the in-loop length check returns `[]`
first otherwise); the loop exiting at the end of the list is `.ok none`
(Python returns `[]`); exiting at index `idx` is `.ok (some idx)`. -/
def find_start_from (st : ℚ) : List Sample → Nat → Except PyErr (Option Nat)
  | [], _ => .error .indexError
  | s :: rest, idx =>
      if s.1 < st then
        match rest with
        | [] => .ok none
        | _ :: _ => find_start_from st rest (idx + 1)
      else .ok (some idx)

/-- The stop-index loop of `get_data` (lines 163-166), counted from the
suffix at the start index: `end = start;
while end < len(l) and stop_time > l[end][0]: end += 1`.
`count_lt stop suffix` is `end - start`. -/
def count_lt (stop : ℚ) : List Sample → Nat
  | [] => 0
  | s :: rest => if s.1 < stop then count_lt stop rest + 1 else 0

/-- The single-channel branch of `DataStream.get_data` (the
`not isinstance(channels, list)` path, lines 138-170): raise on a missing
channel; return the full list (a copy, `l[:]`) when `start_time` is `None`;
otherwise locate the start index, return `l[start:]` when `duration` is
`None`, and the slice `l[start:end]` with `stop_time = start_time + duration`
otherwise. -/
def get_data_single (ds : DataStream) (channel : String)
    (start_time duration : Option ℚ) : Except PyErr (List Sample) :=
  match alookup ds.channels channel with
  | none => .error (.exception ("A channel with name " ++ channel ++ " does not exist"))
  | some l =>
      match start_time with
      | none => .ok l
      | some st =>
          match find_start_from st l 0 with
          | .error e => .error e
          | .ok none => .ok []
          | .ok (some start) =>
              match duration with
              | none => .ok (l.drop start)
              | some dur => .ok ((l.drop start).take (count_lt (st + dur) (l.drop start)))

/-- The multi-channel branch of `DataStream.get_data` (lines 172-178): build
the result dict `return_data[channel] = self.get_data(channel, ...)` in
iteration order.  The recursive call can raise (missing channel, or the
empty-channel `IndexError`), and nothing catches it, so the first failing
channel aborts the whole call. -/
def get_data_multi (ds : DataStream) (channels : List String)
    (start_time duration : Option ℚ) : Except PyErr (List (String × List Sample)) :=
  match channels with
  | [] => .ok []
  | c :: rest =>
      match get_data_single ds c start_time duration with
      | .error e => .error e
      | .ok d =>
          match get_data_multi ds rest start_time duration with
          | .error e => .error e
          | .ok m => .ok ((c, d) :: m)

/-- The single-channel branch of `DataStream.get_latest_data` (line 202):
`return self.channels[channels][-1]`.  The dict subscript raises `KeyError`
on a missing channel and `[-1]` raises `IndexError` on an empty list;
otherwise it is the last element. -/
def get_latest_data_single (ds : DataStream) (channel : String) : Except PyErr Sample :=
  match alookup ds.channels channel with
  | none => .error (.keyError channel)
  | some [] => .error .indexError
  | some (s :: rest) => .ok ((s :: rest).getLast (List.cons_ne_nil s rest))

/-- The thread bookkeeping of a `DataStream` object: `_eeg_thread_active`
(the boolean stop flag), `_eeg_thread` (the current thread handle, identified
by its creation index), and a ghost counter of how many background threads
have ever been constructed and started by `lsl_start` (each
`threading.Thread(...)` + `.start()` pair increments it and the new thread's
handle is the previous counter value). -/
structure LslState : Type where
  active : Bool
  thread : Option Nat
  spawned : Nat
  deriving DecidableEq, Repr

/-- The thread state set up by `DataStream.__init__`:
`_eeg_thread = None`, `_eeg_thread_active = False`, no thread ever spawned. -/
def initLsl : LslState := ⟨false, none, 0⟩

/-- `DataStream.lsl_start` (lines 52-60): unconditionally set
`_eeg_thread_active = True`, construct a new `threading.Thread` and start it,
storing the new handle.  There is no already-streaming check and no raise
path. -/
def lsl_start (s : LslState) : LslState :=
  ⟨true, some s.spawned, s.spawned + 1⟩

/-- `DataStream.lsl_stop`: set `_eeg_thread_active = False` and drop the
thread handle. -/
def lsl_stop (s : LslState) : LslState :=
  ⟨false, none, s.spawned⟩

/-- `lsl_start` embedded into the exception monad.  The Python method has no
raise statement, so every call returns normally; this wrapper makes that
fact statable against the spec's claim that a second start raises
`AlreadyStreaming`. -/
def lsl_start_exc (s : LslState) : Except PyErr LslState :=
  .ok (lsl_start s)

/-- One pull from the LSL inlet inside `_record_lsl_data_indefinitely`:
`samples, timestamp = self._eeg_inlet.pull_sample()` together with
`time_correction = self._eeg_inlet.time_correction()`. -/
structure Pull : Type where
  values : List Int
  timestamp : ℚ
  correction : ℚ
  deriving DecidableEq, Repr

/-- The per-pull body of `_record_lsl_data_indefinitely` (lines 85-87):
`for i in range(len(samples)):
   self.add_data(self._eeg_channel_names[i], [timestamp + time_correction] + [samples[i]])`.
The recursion pairs `samples[i]` with `_eeg_channel_names[i]` positionally;
`names[i]` on an exhausted name list raises `IndexError` just as the Python
subscript would. -/
def record_pull (ds : DataStream) (names : List String) (vals : List Int)
    (ts corr : ℚ) : Except PyErr DataStream :=
  match vals, names with
  | [], _ => .ok ds
  | _ :: _, [] => .error .indexError
  | v :: vs, n :: ns => record_pull ((add_data ds n (ts + corr, v)).1) ns vs ts corr

/-- The channel-creation prologue of `_record_lsl_data_indefinitely`
(lines 75-77): `for channel_name in self._eeg_channel_names:
  if channel_name not in self.list_channels(): self.add_channel(channel_name)`. -/
def create_channels (ds : DataStream) (names : List String) : DataStream :=
  names.foldl (fun s n => if n ∈ list_channels s then s else (add_channel s n).1) ds

/-- The pull loop of `_record_lsl_data_indefinitely` run over a finite trace
of pulls (the `while self._eeg_thread_active` loop executes one iteration
per pull until the stop flag is observed cleared). -/
def record_run (ds : DataStream) (names : List String) :
    List Pull → Except PyErr DataStream
  | [] => .ok ds
  | p :: ps =>
      match record_pull ds names p.values p.timestamp p.correction with
      | .error e => .error e
      | .ok ds' => record_run ds' names ps

/-- A whole run of `_record_lsl_data_indefinitely` on a finite pull trace:
create the advertised channels, then process each pull in order. -/
def record_session (ds : DataStream) (names : List String) (pulls : List Pull) :
    Except PyErr DataStream :=
  record_run (create_channels ds names) names pulls

/-- `find_start_from` instrumented with a cost counter: the second component
counts how many times the loop guard `start_time > l[start][0]` of
`get_data`'s start-index search is evaluated (one timestamp read and
comparison per count). -/
def find_start_steps (st : ℚ) : List Sample → Nat → Except PyErr (Option Nat) × Nat
  | [], _ => (.error .indexError, 0)
  | s :: rest, idx =>
      if s.1 < st then
        match rest with
        | [] => (.ok none, 1)
        | _ :: _ =>
            ((find_start_steps st rest (idx + 1)).1,
              (find_start_steps st rest (idx + 1)).2 + 1)
      else (.ok (some idx), 1)

/-- A channel whose samples carry timestamps `0, 1, ..., n-1` (the shape of
an append-only ingestion run with unit spacing). -/
def chain (n : Nat) : List Sample :=
  (List.range n).map (fun i : Nat => ((i : ℚ), (0 : Int)))

/-- A refinement of the channel store that tracks Python list objects by
reference: `channels` maps each name to the heap address of its list
object, `heap` gives each address's current contents, and `nextRef` is the
next fresh address.  This makes the aliasing behavior of
`return self.channels[channel][:]` (a new list object with copied contents)
statable. -/
structure HeapStore : Type where
  channels : List (String × Nat)
  heap : Nat → List Sample
  nextRef : Nat

/-- Heap well-formedness: every list object reachable from the channel map
lives below the allocation frontier. -/
def hwf (s : HeapStore) : Prop := ∀ p ∈ s.channels, p.2 < s.nextRef

/-- The `start_time is None` branch of `get_data`
(`return self.channels[channel][:]`, line 147) at the heap level: look up
the channel's list object and allocate a fresh list object holding a copy
of its contents, returning the fresh address.  Returning
`self.channels[channel]` without the `[:]` would instead return the stored
address itself. -/
def hget_data_all (s : HeapStore) (c : String) : Except PyErr (Nat × HeapStore) :=
  match alookup s.channels c with
  | none => .error (.exception ("A channel with name " ++ c ++ " does not exist"))
  | some r =>
      .ok (s.nextRef,
        ⟨s.channels, fun x => if x = s.nextRef then s.heap r else s.heap x,
          s.nextRef + 1⟩)

/-- An arbitrary caller-side in-place mutation of the list object at address
`r` (e.g. `result.append(...)`, `result.clear()`): overwrite its contents. -/
def hmutate (s : HeapStore) (r : Nat) (v : List Sample) : HeapStore :=
  ⟨s.channels, fun x => if x = r then v else s.heap x, s.nextRef⟩

/-- Append a whole sequence of samples to a channel, one `add_data` call per
sample in order. -/
def append_all (ds : DataStream) (c : String) (seq : List Sample) : DataStream :=
  seq.foldl (fun s x => (add_data s c x).1) ds

/-- A store holding one channel `"ch"` with the spec's example timestamps
`[0,1,2,3,4,5]` (values chosen equal to the timestamps). -/
def ds012345 : DataStream :=
  ⟨[("ch", [(0, 0), (1, 1), (2, 2), (3, 3), (4, 4), (5, 5)])]⟩

/-- A store holding one existing (empty) channel `"a"` and no channel
`"nope"`. -/
def dsA : DataStream := ⟨[("a", [])]⟩

/-- A heap store with one channel `"ch"` at address 0 holding one sample. -/
def hs0 : HeapStore := ⟨[("ch", 0)], fun x => if x = 0 then [(1, 1)] else [], 1⟩

/-- The fake-source trace of the spec's end-to-end scenario: three pulls for
two channels with source timestamps `10, 11, 12` and clock correction
`0.5`. -/
def c8pulls : List Pull :=
  [⟨[1, 2], 10, 1/2⟩, ⟨[3, 4], 11, 1/2⟩, ⟨[5, 6], 12, 1/2⟩]

/-! Helper lemmas about the association-list dict operations. -/

lemma alookup_aappend_self (L : List (String × List Sample)) (c : String) (d : Sample) :
    alookup (aappend L c d) c = (alookup L c).map (fun l => l ++ [d]) := by
  induction L with
  | nil => rfl
  | cons p rest ih =>
      obtain ⟨k, v⟩ := p
      by_cases hk : k = c <;> simp [aappend, alookup, hk, ih]

lemma alookup_aappend_ne (L : List (String × List Sample)) (c m : String) (d : Sample)
    (h : m ≠ c) : alookup (aappend L c d) m = alookup L m := by
  induction L with
  | nil => rfl
  | cons p rest ih =>
      obtain ⟨k, v⟩ := p
      by_cases hk : k = c
      · subst hk
        have hkm : ¬(k = m) := fun hm => h (hm ▸ rfl)
        simp [aappend, alookup, hkm]
      · by_cases hkm : k = m
        · subst hkm
          simp [aappend, alookup, hk]
        · simp [aappend, alookup, hk, hkm, ih]

lemma alookup_mem {α : Type} (L : List (String × α)) (c : String) (a : α)
    (h : alookup L c = some a) : (c, a) ∈ L := by
  induction L with
  | nil => simp [alookup] at h
  | cons p rest ih =>
      obtain ⟨k, v⟩ := p
      by_cases hk : k = c
      · subst hk
        simp [alookup] at h
        simp [h]
      · simp [alookup, hk] at h
        simp [ih h]

lemma add_data_lookup_self (ds : DataStream) (c : String) (d : Sample) (l : List Sample)
    (h : alookup ds.channels c = some l) :
    alookup ((add_data ds c d).1).channels c = some (l ++ [d]) := by
  simp [add_data, h, alookup_aappend_self]

lemma add_data_lookup_ne (ds : DataStream) (c m : String) (d : Sample) (h : m ≠ c) :
    alookup ((add_data ds c d).1).channels m = alookup ds.channels m := by
  cases hc : alookup ds.channels c with
  | none => simp [add_data, hc]
  | some l => simp [add_data, hc, alookup_aappend_ne _ _ _ _ h]

lemma alookup_isSome_add_data (ds : DataStream) (c n : String) (d : Sample)
    (h : (alookup ds.channels n).isSome = true) :
    (alookup ((add_data ds c d).1).channels n).isSome = true := by
  by_cases hnc : n = c
  · subst hnc
    cases hl : alookup ds.channels n with
    | none => simp [hl] at h
    | some l => simp [add_data_lookup_self ds n d l hl]
  · rw [add_data_lookup_ne ds c n d hnc]
    exact h

lemma append_all_lookup : ∀ (seq : List Sample) (ds : DataStream) (c : String)
    (l : List Sample), alookup ds.channels c = some l →
    alookup (append_all ds c seq).channels c = some (l ++ seq) := by
  intro seq
  induction seq with
  | nil => intro ds c l h; simpa [append_all] using h
  | cons x xs ih =>
      intro ds c l h
      have h1 := add_data_lookup_self ds c x l h
      have h2 := ih ((add_data ds c x).1) c (l ++ [x]) h1
      simpa [append_all, List.append_assoc] using h2

/-! Helper lemmas characterizing the start-index and stop-index loops of
`get_data`. -/

lemma find_start_from_single (st : ℚ) (s : Sample) (i : Nat) :
    find_start_from st [s] i = if s.1 < st then .ok none else .ok (some i) := rfl

lemma find_start_from_cons_cons (st : ℚ) (s b : Sample) (t : List Sample) (i : Nat) :
    find_start_from st (s :: b :: t) i =
      if s.1 < st then find_start_from st (b :: t) (i + 1) else .ok (some i) := rfl

lemma find_start_eq_none (st : ℚ) : ∀ (l : List Sample) (i : Nat), l ≠ [] →
    (∀ s ∈ l, s.1 < st) → find_start_from st l i = .ok none := by
  intro l
  induction l with
  | nil => intro i h _; exact absurd rfl h
  | cons s rest ih =>
      intro i _ hall
      have hs : s.1 < st := hall s (by simp)
      cases rest with
      | nil => simp [find_start_from_single, hs]
      | cons b t =>
          have hr := ih (i + 1) (by simp) (fun x hx => hall x (by simp [hx]))
          rw [find_start_from_cons_cons, if_pos hs, hr]

lemma find_start_eq_some (st : ℚ) : ∀ (l : List Sample) (i : Nat),
    (l.takeWhile fun s => decide (s.1 < st)).length < l.length →
    find_start_from st l i =
      .ok (some (i + (l.takeWhile fun s => decide (s.1 < st)).length)) := by
  intro l
  induction l with
  | nil => intro i h; simp at h
  | cons s rest ih =>
      intro i h
      by_cases hs : s.1 < st
      · rw [List.takeWhile_cons_of_pos (by simpa using hs)] at h ⊢
        simp only [List.length_cons, Nat.add_lt_add_iff_right] at h
        cases rest with
        | nil => simp at h
        | cons b t =>
            have hr := ih (i + 1) h
            have harith : i + 1 + ((b :: t).takeWhile fun s => decide (s.1 < st)).length
                = i + (((b :: t).takeWhile fun s => decide (s.1 < st)).length + 1) := by
              omega
            rw [find_start_from_cons_cons, if_pos hs, hr, harith]
            simp
      · cases rest with
        | nil =>
            rw [find_start_from_single, if_neg hs,
              List.takeWhile_cons_of_neg (by simpa using hs)]
            simp
        | cons b t =>
            rw [find_start_from_cons_cons, if_neg hs,
              List.takeWhile_cons_of_neg (by simpa using hs)]
            simp

lemma take_count_lt (stop : ℚ) : ∀ l : List Sample,
    l.take (count_lt stop l) = l.takeWhile fun s => decide (s.1 < stop) := by
  intro l
  induction l with
  | nil => rfl
  | cons s rest ih =>
      by_cases hs : s.1 < stop
      · simp [count_lt, hs, List.takeWhile_cons_of_pos (by simpa using hs), ih]
      · simp [count_lt, hs, List.takeWhile_cons_of_neg (by simpa using hs)]

lemma all_of_takeWhile_length_eq {p : Sample → Bool} : ∀ l : List Sample,
    (l.takeWhile p).length = l.length → ∀ s ∈ l, p s = true := by
  intro l
  induction l with
  | nil => intro _ s hs; simp at hs
  | cons a rest ih =>
      intro h s hs
      by_cases hp : p a = true
      · rw [List.takeWhile_cons_of_pos hp] at h
        simp only [List.length_cons, Nat.add_right_cancel_iff] at h
        rcases List.mem_cons.mp hs with rfl | hmem
        · exact hp
        · exact ih h s hmem
      · rw [List.takeWhile_cons_of_neg hp] at h
        simp at h

lemma takeWhile_lt_eq_filter (c : ℚ) : ∀ l : List Sample,
    l.Pairwise (fun a b => a.1 ≤ b.1) →
    (l.takeWhile fun s => decide (s.1 < c)) = l.filter fun s => decide (s.1 < c) := by
  intro l
  induction l with
  | nil => intro _; rfl
  | cons s rest ih =>
      intro hp
      obtain ⟨hhead, htail⟩ := List.pairwise_cons.mp hp
      by_cases hs : s.1 < c
      · rw [List.takeWhile_cons_of_pos (by simpa using hs),
          List.filter_cons_of_pos (by simpa using hs), ih htail]
      · rw [List.takeWhile_cons_of_neg (by simpa using hs),
          List.filter_cons_of_neg (by simpa using hs)]
        symm
        rw [List.filter_eq_nil_iff]
        intro b hb
        simp only [decide_eq_true_eq]
        exact fun hbc => hs (lt_of_le_of_lt (hhead b hb) hbc)

lemma drop_takeWhile_eq_filter (st stop : ℚ) : ∀ l : List Sample,
    l.Pairwise (fun a b => a.1 ≤ b.1) →
    ((l.drop (l.takeWhile fun s => decide (s.1 < st)).length).takeWhile
        fun s => decide (s.1 < stop))
      = l.filter fun s => decide (st ≤ s.1) && decide (s.1 < stop) := by
  intro l
  induction l with
  | nil => intro _; rfl
  | cons s rest ih =>
      intro hp
      obtain ⟨hhead, htail⟩ := List.pairwise_cons.mp hp
      by_cases hs : s.1 < st
      · rw [List.takeWhile_cons_of_pos (by simpa using hs)]
        simp only [List.length_cons, List.drop_succ_cons]
        rw [ih htail, List.filter_cons_of_neg (by simp [not_le.mpr hs])]
      · rw [List.takeWhile_cons_of_neg (by simpa using hs)]
        simp only [List.length_nil, List.drop_zero]
        have hcong : (s :: rest).filter (fun x => decide (st ≤ x.1) && decide (x.1 < stop))
            = (s :: rest).filter (fun x => decide (x.1 < stop)) := by
          apply List.filter_congr
          intro x hx
          have hstx : st ≤ x.1 := by
            rcases List.mem_cons.mp hx with rfl | hmem
            · exact not_lt.mp hs
            · exact le_trans (not_lt.mp hs) (hhead x hmem)
          simp [hstx]
        rw [hcong, ← takeWhile_lt_eq_filter stop (s :: rest) hp]

lemma ts_le_getLast : ∀ (l : List Sample) (h : l ≠ []),
    l.Pairwise (fun a b => a.1 ≤ b.1) → ∀ s ∈ l, s.1 ≤ (l.getLast h).1 := by
  intro l
  induction l with
  | nil => intro h; exact absurd rfl h
  | cons a rest ih =>
      intro h hp s hs
      obtain ⟨hhead, htail⟩ := List.pairwise_cons.mp hp
      cases rest with
      | nil =>
          simp at hs
          simp [hs]
      | cons b t =>
          rw [List.getLast_cons (List.cons_ne_nil b t)]
          rcases List.mem_cons.mp hs with rfl | hmem
          · exact hhead _ (List.getLast_mem (List.cons_ne_nil b t))
          · exact ih (List.cons_ne_nil b t) htail s hmem

lemma getLast_append_one (l : List Sample) (d : Sample) (h : l ++ [d] ≠ []) :
    (l ++ [d]).getLast h = d := List.getLast_append_singleton l

/-! Helper lemmas for the instrumented start-index search. -/

lemma find_start_steps_single (st : ℚ) (s : Sample) (i : Nat) :
    find_start_steps st [s] i =
      if s.1 < st then (.ok none, 1) else (.ok (some i), 1) := rfl

lemma find_start_steps_cons_cons (st : ℚ) (s b : Sample) (t : List Sample) (i : Nat) :
    find_start_steps st (s :: b :: t) i =
      if s.1 < st then
        ((find_start_steps st (b :: t) (i + 1)).1,
          (find_start_steps st (b :: t) (i + 1)).2 + 1)
      else (.ok (some i), 1) := rfl

lemma find_start_steps_fst (st : ℚ) : ∀ (l : List Sample) (i : Nat),
    (find_start_steps st l i).1 = find_start_from st l i := by
  intro l
  induction l with
  | nil => intro i; rfl
  | cons s rest ih =>
      intro i
      by_cases hs : s.1 < st
      · cases rest with
        | nil => rw [find_start_steps_single, find_start_from_single, if_pos hs, if_pos hs]
        | cons b t =>
            rw [find_start_steps_cons_cons, find_start_from_cons_cons, if_pos hs, if_pos hs]
            exact ih (i + 1)
      · cases rest with
        | nil => rw [find_start_steps_single, find_start_from_single, if_neg hs, if_neg hs]
        | cons b t =>
            rw [find_start_steps_cons_cons, find_start_from_cons_cons, if_neg hs, if_neg hs]

lemma find_start_steps_all_lt (st : ℚ) : ∀ (l : List Sample) (i : Nat), l ≠ [] →
    (∀ s ∈ l, s.1 < st) → find_start_steps st l i = (.ok none, l.length) := by
  intro l
  induction l with
  | nil => intro i h _; exact absurd rfl h
  | cons s rest ih =>
      intro i _ hall
      have hs : s.1 < st := hall s (by simp)
      cases rest with
      | nil => simp [find_start_steps_single, hs]
      | cons b t =>
          have hr := ih (i + 1) (by simp) (fun x hx => hall x (by simp [hx]))
          rw [find_start_steps_cons_cons, if_pos hs, hr]
          simp

/-! Helper lemmas for the latest-sample lookup and the ingestion loop. -/

lemma get_latest_eq_getLast (ds : DataStream) (c : String) (l : List Sample) (h : l ≠ [])
    (hlk : alookup ds.channels c = some l) :
    get_latest_data_single ds c = .ok (l.getLast h) := by
  cases l with
  | nil => exact absurd rfl h
  | cons s rest => simp [get_latest_data_single, hlk]

lemma record_pull_spec : ∀ (vals : List Int) (names : List String) (ds : DataStream)
    (ts corr : ℚ), names.Nodup → vals.length = names.length →
    (∀ n ∈ names, (alookup ds.channels n).isSome = true) →
    ∃ ds', record_pull ds names vals ts corr = .ok ds' ∧
      (∀ p ∈ names.zip vals,
          alookup ds'.channels p.1 =
            (alookup ds.channels p.1).map (fun l => l ++ [(ts + corr, p.2)])) ∧
      (∀ m, m ∉ names → alookup ds'.channels m = alookup ds.channels m) := by
  intro vals
  induction vals with
  | nil =>
      intro names ds ts corr _ _ _
      refine ⟨ds, ?_, by simp, fun m _ => rfl⟩
      cases names <;> rfl
  | cons v vs ih =>
      intro names ds ts corr hnd hlen hex
      cases names with
      | nil => simp at hlen
      | cons n ns =>
          obtain ⟨hnin, hnsnd⟩ := List.nodup_cons.mp hnd
          have hlen' : vs.length = ns.length := by simpa using hlen
          have hnsome : (alookup ds.channels n).isSome = true := hex n (by simp)
          obtain ⟨l0, hl0⟩ := Option.isSome_iff_exists.mp hnsome
          have h1 : alookup ((add_data ds n (ts + corr, v)).1).channels n
              = some (l0 ++ [(ts + corr, v)]) := add_data_lookup_self ds n _ l0 hl0
          have hex1 : ∀ m ∈ ns,
              (alookup ((add_data ds n (ts + corr, v)).1).channels m).isSome = true :=
            fun m hm => alookup_isSome_add_data ds n m _ (hex m (by simp [hm]))
          obtain ⟨ds', hrec, hzip, hpres⟩ :=
            ih ns ((add_data ds n (ts + corr, v)).1) ts corr hnsnd hlen' hex1
          refine ⟨ds', ?_, ?_, ?_⟩
          · simpa [record_pull] using hrec
          · intro p hp
            obtain ⟨a, b⟩ := p
            rcases (by simpa [List.zip_cons_cons] using hp :
                (a = n ∧ b = v) ∨ (a, b) ∈ ns.zip vs) with ⟨rfl, rfl⟩ | hmem
            · simp [hpres a hnin, h1, hl0]
            · have ha : a ∈ ns := (List.of_mem_zip hmem).1
              have hane : a ≠ n := fun he => hnin (he ▸ ha)
              rw [hzip (a, b) hmem, add_data_lookup_ne ds n a _ hane]
          · intro m hm
            have hmn : m ≠ n := fun he => hm (by simp [he])
            have hmns : m ∉ ns := fun hmem => hm (by simp [hmem])
            rw [hpres m hmns, add_data_lookup_ne ds n m _ hmn]

lemma length_takeWhile_le_self {p : Sample → Bool} : ∀ l : List Sample,
    (l.takeWhile p).length ≤ l.length := by
  intro l
  induction l with
  | nil => simp
  | cons a t ih =>
      by_cases hp : p a = true
      · rw [List.takeWhile_cons_of_pos hp]
        simp only [List.length_cons]
        exact Nat.succ_le_succ ih
      · rw [List.takeWhile_cons_of_neg hp]
        simp

/-! Claim theorems. -/

/-- C1 (amended): on a sorted **non-empty** channel, `Query` with both
`startTime` and `duration` returns exactly the samples with
`startTime <= timestamp < startTime + duration`, in order; in particular on
timestamps `[0,1,2,3,4,5]`, `Query(ch, 2, 2)` returns the samples
timestamped 2 and 3.  (The non-emptiness hypothesis is forced by the
counterexample `query_range_empty_channel_cex`: on an empty channel the
start-index search indexes out of range instead of returning the empty
result.) -/
theorem query_range_returns_filtered :
    (∀ (ds : DataStream) (c : String) (l : List Sample) (st dur : ℚ),
        alookup ds.channels c = some l →
        l.Pairwise (fun a b => a.1 ≤ b.1) → l ≠ [] →
        get_data_single ds c (some st) (some dur) =
          .ok (l.filter fun s => decide (st ≤ s.1) && decide (s.1 < st + dur))) ∧
    get_data_single ds012345 "ch" (some 2) (some 2) = .ok [(2, 2), (3, 3)] := by
  constructor
  · intro ds c l st dur hlk hp hne
    rcases Nat.lt_or_ge (l.takeWhile fun s => decide (s.1 < st)).length l.length with hk | hk
    · have hfs := find_start_eq_some st l 0 hk
      rw [Nat.zero_add] at hfs
      simp only [get_data_single, hlk, hfs]
      rw [take_count_lt (st + dur) _, drop_takeWhile_eq_filter st (st + dur) l hp]
    · have hkeq : (l.takeWhile fun s => decide (s.1 < st)).length = l.length :=
        le_antisymm (length_takeWhile_le_self l) hk
      have hall : ∀ s ∈ l, s.1 < st := fun s hs =>
        of_decide_eq_true (all_of_takeWhile_length_eq l hkeq s hs)
      have hnil : (l.filter fun s => decide (st ≤ s.1) && decide (s.1 < st + dur)) = [] := by
        rw [List.filter_eq_nil_iff]
        intro s hs
        simp [not_le.mpr (hall s hs)]
      simp only [get_data_single, hlk, find_start_eq_none st l 0 hne hall, hnil]
  · norm_num +decide [get_data_single, ds012345, alookup, find_start_from, count_lt]

/-- C1 counterexample: the channel `"a"` of `dsA` is empty, hence (vacuously)
sorted by non-decreasing timestamp, and the claimed result set is empty; but
`Query("a", 2, 2)` raises `IndexError` instead of returning the empty
sequence, so the claim as stated fails on empty channels. -/
theorem query_range_empty_channel_cex :
    get_data_single dsA "a" (some 2) (some 2) = .error .indexError := by
  norm_num [get_data_single, dsA, alookup, find_start_from]

/-- Witness for `query_range_returns_filtered` at the spec's concrete
range-correctness example. -/
theorem query_range_witness :
    get_data_single ds012345 "ch" (some 2) (some 2) = .ok [((2 : ℚ), (2 : Int)), (3, 3)] :=
  (query_range_returns_filtered.1 ds012345 "ch"
      [(0, 0), (1, 1), (2, 2), (3, 3), (4, 4), (5, 5)] 2 2 rfl
      (by norm_num [List.pairwise_cons]) (by simp)).trans (by norm_num)

/-- C2: appending a sequence of samples to an existing (freshly created,
empty) channel and querying with `startTime = None` returns exactly that
sequence in append order; and at the heap level the returned list is a fresh
copy (`l[:]` allocates a new list object), so any caller-side in-place
mutation of the result leaves the store's channel map and the channel's own
list object unchanged. -/
theorem append_query_round_trip_and_defensive_copy :
    (∀ (ds : DataStream) (c : String) (seq : List Sample),
        alookup ds.channels c = some [] →
        get_data_single (append_all ds c seq) c none none = .ok seq) ∧
    (∀ (s : HeapStore) (c : String) (r : Nat) (v : List Sample),
        hwf s → alookup s.channels c = some r →
        ∃ r' s', hget_data_all s c = .ok (r', s') ∧ s'.heap r' = s.heap r ∧
          (hmutate s' r' v).heap r = s.heap r ∧
          (hmutate s' r' v).channels = s.channels) := by
  constructor
  · intro ds c seq h
    have h2 := append_all_lookup seq ds c [] h
    rw [List.nil_append] at h2
    simp [get_data_single, h2]
  · intro s c r v hw hlk
    have hr : r < s.nextRef := hw (c, r) (alookup_mem s.channels c r hlk)
    have hne : r ≠ s.nextRef := Nat.ne_of_lt hr
    refine ⟨s.nextRef,
      ⟨s.channels, fun x => if x = s.nextRef then s.heap r else s.heap x, s.nextRef + 1⟩,
      ?_, ?_, ?_, ?_⟩
    · simp [hget_data_all, hlk]
    · simp
    · simp [hmutate, hne]
    · rfl

/-- Witness for `append_query_round_trip_and_defensive_copy` on a concrete
two-sample append and the concrete heap store `hs0`. -/
theorem append_query_round_trip_witness :
    (get_data_single (append_all ⟨[("ch", [])]⟩ "ch" [(1, 5), (2, 6)]) "ch" none none
        = .ok [((1 : ℚ), (5 : Int)), (2, 6)]) ∧
    (∃ r' s', hget_data_all hs0 "ch" = .ok (r', s') ∧ s'.heap r' = hs0.heap 0 ∧
        (hmutate s' r' []).heap 0 = hs0.heap 0 ∧
        (hmutate s' r' []).channels = hs0.channels) :=
  ⟨append_query_round_trip_and_defensive_copy.1 ⟨[("ch", [])]⟩ "ch" [(1, 5), (2, 6)] rfl,
    append_query_round_trip_and_defensive_copy.2 hs0 "ch" 0 [] (by simp [hwf, hs0]) rfl⟩

/-- C3 (amended): `Append` on a missing channel surfaces **no** error to the
caller: the call returns normally, prints a missing-channel report, never
auto-creates the channel, and leaves the store unchanged. -/
theorem append_missing_channel_reports :
    ∀ (ds : DataStream) (c : String) (d : Sample), alookup ds.channels c = none →
      add_data_exc ds c d = .ok (ds, ["A channel with name " ++ c ++ " does not exist"]) := by
  intro ds c d h
  simp [add_data_exc, add_data, h]

/-- C3 counterexample: on the empty store (no channel `"x"`), `add_data`
returns normally (`.ok`) with the store unchanged and only a printed report,
refuting the claim that the call fails with a `ChannelNotFound` error
surfaced to the immediate caller. -/
theorem append_missing_channel_cex :
    add_data_exc emptyDS "x" ((0 : ℚ), (0 : Int)) =
      .ok (emptyDS, ["A channel with name x does not exist"]) := by
  simp +decide [add_data_exc, add_data, emptyDS, alookup]

/-- Witness for `append_missing_channel_reports` on a store without the
channel `"nope"`. -/
theorem append_missing_channel_witness :
    add_data_exc dsA "nope" ((0 : ℚ), (0 : Int)) =
      .ok (dsA, ["A channel with name " ++ "nope" ++ " does not exist"]) :=
  append_missing_channel_reports dsA "nope" ((0 : ℚ), (0 : Int)) rfl

/-- C4 (amended): calling `Start` while the session is already streaming does
**not** fail: the call returns normally and unconditionally constructs and
starts one more background thread (the spawn counter increases and the
stored handle is replaced by the fresh thread), so a second ingestion task
becomes active alongside the first. -/
theorem start_while_streaming_starts_second_task :
    ∀ s : LslState, s.active = true →
      lsl_start_exc s = .ok (lsl_start s) ∧ (lsl_start s).spawned = s.spawned + 1 ∧
      (lsl_start s).thread = some s.spawned ∧ (lsl_start s).active = true :=
  fun s _ => ⟨rfl, rfl, rfl, rfl⟩

/-- C4 counterexample: after one `Start` the session is streaming; a second
`Start` returns normally (`.ok`, no `AlreadyStreaming` error) and the spawn
counter reaches 2 — a second background task was started. -/
theorem start_while_streaming_cex :
    (lsl_start initLsl).active = true ∧
    lsl_start_exc (lsl_start initLsl) = .ok ⟨true, some 1, 2⟩ := by
  exact ⟨rfl, rfl⟩

/-- Witness for `start_while_streaming_starts_second_task` at the state
reached by one `Start` from the initial state. -/
theorem start_while_streaming_witness :
    lsl_start_exc (lsl_start initLsl) = .ok (lsl_start (lsl_start initLsl)) ∧
    (lsl_start (lsl_start initLsl)).spawned = (lsl_start initLsl).spawned + 1 ∧
    (lsl_start (lsl_start initLsl)).thread = some (lsl_start initLsl).spawned ∧
    (lsl_start (lsl_start initLsl)).active = true :=
  start_while_streaming_starts_second_task (lsl_start initLsl) rfl

/-- C5 (amended): a multi-channel `Query` whose name set contains a missing
channel aborts the whole call: the first failing per-channel query's error
propagates out of the batch instead of being collected per-name. -/
theorem multi_query_missing_channel_aborts :
    ∀ (ds : DataStream) (names : List String) (st dur : Option ℚ),
      (∃ n, n ∈ names ∧ alookup ds.channels n = none) →
      ∃ e, get_data_multi ds names st dur = .error e := by
  intro ds names st dur
  induction names with
  | nil => rintro ⟨n, hn, _⟩; exact absurd hn (List.not_mem_nil n)
  | cons c rest ih =>
      rintro ⟨n, hn, hlk⟩
      rcases List.mem_cons.mp hn with heq | hmem
      · subst heq
        exact ⟨.exception ("A channel with name " ++ n ++ " does not exist"),
          by simp [get_data_multi, get_data_single, hlk]⟩
      · cases hsing : get_data_single ds c st dur with
        | error e => exact ⟨e, by simp [get_data_multi, hsing]⟩
        | ok d =>
            obtain ⟨e, he⟩ := ih ⟨n, hmem, hlk⟩
            exact ⟨e, by simp [get_data_multi, hsing, he]⟩

/-- C5 counterexample: querying the set `["a", "nope"]` on a store that has
channel `"a"` but not `"nope"` returns a top-level error (the whole call
aborts), not a per-name mapping with `"a"` bound to its query result. -/
theorem multi_query_missing_cex :
    get_data_multi dsA ["a", "nope"] none none =
      .error (.exception "A channel with name nope does not exist") := by
  norm_num +decide [get_data_multi, get_data_single, dsA, alookup]

/-- Witness for `multi_query_missing_channel_aborts` at a concrete store and
name set. -/
theorem multi_query_missing_witness :
    ∃ e, get_data_multi dsA ["a", "nope"] none none = .error e :=
  multi_query_missing_channel_aborts dsA ["a", "nope"] none none ⟨"nope", by simp, rfl⟩

/-- C6: `Latest` returns the most recently appended sample of an existing
non-empty channel (the last element, and in particular the sample just
appended by `Append`); it fails with the empty-channel error (`IndexError`,
the spec's `EmptyChannel`) when the channel exists but has no data, and with
the missing-channel error (`KeyError`, the spec's `ChannelNotFound`) when
the channel is absent. -/
theorem latest_sample_behavior :
    (∀ (ds : DataStream) (c : String) (l : List Sample) (h : l ≠ []),
        alookup ds.channels c = some l →
        get_latest_data_single ds c = .ok (l.getLast h)) ∧
    (∀ (ds : DataStream) (c : String), alookup ds.channels c = some [] →
        get_latest_data_single ds c = .error .indexError) ∧
    (∀ (ds : DataStream) (c : String), alookup ds.channels c = none →
        get_latest_data_single ds c = .error (.keyError c)) ∧
    (∀ (ds : DataStream) (c : String) (l : List Sample) (d : Sample),
        alookup ds.channels c = some l →
        get_latest_data_single ((add_data ds c d).1) c = .ok d) := by
  refine ⟨?_, ?_, ?_, ?_⟩
  · exact fun ds c l h hlk => get_latest_eq_getLast ds c l h hlk
  · intro ds c hlk
    simp [get_latest_data_single, hlk]
  · intro ds c hlk
    simp [get_latest_data_single, hlk]
  · intro ds c l d hlk
    have h1 := add_data_lookup_self ds c d l hlk
    have h2 := get_latest_eq_getLast _ c (l ++ [d]) (by simp) h1
    rw [h2, getLast_append_one]

/-- Witness for `latest_sample_behavior` on concrete stores covering all
four branches. -/
theorem latest_sample_witness :
    get_latest_data_single ds012345 "ch" = .ok ((5 : ℚ), (5 : Int)) ∧
    get_latest_data_single dsA "a" = .error .indexError ∧
    get_latest_data_single dsA "nope" = .error (.keyError "nope") ∧
    get_latest_data_single ((add_data dsA "a" (7, 7)).1) "a" = .ok ((7 : ℚ), (7 : Int)) :=
  ⟨(latest_sample_behavior.1 ds012345 "ch"
      [(0, 0), (1, 1), (2, 2), (3, 3), (4, 4), (5, 5)] (by simp) rfl).trans rfl,
    latest_sample_behavior.2.1 dsA "a" rfl,
    latest_sample_behavior.2.2.1 dsA "nope" rfl,
    latest_sample_behavior.2.2.2 dsA "a" [] (7, 7) rfl⟩

/-- C7: on an existing sorted non-empty channel, `Query` with a `startTime`
strictly beyond the last sample's timestamp returns the empty sequence and
raises no error (for any `duration`). -/
theorem query_beyond_last_returns_empty :
    ∀ (ds : DataStream) (c : String) (l : List Sample) (h : l ≠ []) (st : ℚ)
      (dur : Option ℚ), alookup ds.channels c = some l →
      l.Pairwise (fun a b => a.1 ≤ b.1) → (l.getLast h).1 < st →
      get_data_single ds c (some st) dur = .ok [] := by
  intro ds c l h st dur hlk hp hlast
  have hall : ∀ s ∈ l, s.1 < st := fun s hs =>
    lt_of_le_of_lt (ts_le_getLast l h hp s hs) hlast
  simp only [get_data_single, hlk, find_start_eq_none st l 0 h hall]

/-- Witness for `query_beyond_last_returns_empty` at the spec's concrete
empty-range example (`startTime = 100` on timestamps `[0..5]`). -/
theorem query_beyond_last_witness :
    get_data_single ds012345 "ch" (some 100) none = .ok [] :=
  query_beyond_last_returns_empty ds012345 "ch"
    [(0, 0), (1, 1), (2, 2), (3, 3), (4, 4), (5, 5)] (by simp) 100 none rfl
    (by norm_num [List.pairwise_cons]) (by norm_num [List.getLast])

/-- C10: on a store holding an **empty** channel, `Query` with any given
`startTime` (and any `duration`) raises the out-of-range indexing error: the
start-index loop reads `l[0]` before checking that the list is non-empty. -/
theorem query_empty_channel_raises_index_error :
    ∀ (ds : DataStream) (c : String) (st : ℚ) (dur : Option ℚ),
      alookup ds.channels c = some [] →
      get_data_single ds c (some st) dur = .error .indexError := by
  intro ds c st dur hlk
  simp [get_data_single, hlk, find_start_from]

/-- Witness for `query_empty_channel_raises_index_error` on the concrete
store `dsA` whose channel `"a"` is empty. -/
theorem query_empty_channel_witness :
    get_data_single dsA "a" (some 5) none = .error .indexError :=
  query_empty_channel_raises_index_error dsA "a" 5 none rfl

/-- C8: for every pull, the ingestion loop appends to each reported channel
(the advertised names paired positionally with the pulled values) exactly
one sample whose timestamp is `sourceTimestamp + clockCorrection`, leaving
all other channels untouched; and in the spec's end-to-end scenario (three
pulls for `["C1","C2"]` with timestamps `10,11,12` and correction `0.5`),
querying `"C1"` afterwards returns samples timestamped
`10.5, 11.5, 12.5` in order. -/
theorem ingestion_appends_corrected_timestamp :
    (∀ (ds : DataStream) (names : List String) (vals : List Int) (ts corr : ℚ),
        names.Nodup → vals.length = names.length →
        (∀ n ∈ names, (alookup ds.channels n).isSome = true) →
        ∃ ds', record_pull ds names vals ts corr = .ok ds' ∧
          (∀ p ∈ names.zip vals,
              alookup ds'.channels p.1 =
                (alookup ds.channels p.1).map (fun l => l ++ [(ts + corr, p.2)])) ∧
          (∀ m, m ∉ names → alookup ds'.channels m = alookup ds.channels m)) ∧
    (record_session emptyDS ["C1", "C2"] c8pulls).map
        (fun d => get_data_single d "C1" none none) =
      .ok (.ok [((21 : ℚ)/2, 1), ((23 : ℚ)/2, 3), ((25 : ℚ)/2, 5)]) := by
  constructor
  · exact fun ds names vals ts corr hnd hlen hex =>
      record_pull_spec vals names ds ts corr hnd hlen hex
  · norm_num +decide [record_session, record_run, record_pull, create_channels, c8pulls,
      emptyDS, add_channel, add_data, aappend, alookup, list_channels, get_data_single,
      Except.map]

/-- Witness for `ingestion_appends_corrected_timestamp` on a one-channel,
one-value pull against the concrete store `dsA`. -/
theorem ingestion_appends_witness :
    ∃ ds', record_pull dsA ["a"] [5] 1 2 = .ok ds' ∧
      (∀ p ∈ (["a"] : List String).zip ([5] : List Int),
          alookup ds'.channels p.1 =
            (alookup dsA.channels p.1).map (fun l => l ++ [((1 : ℚ) + 2, p.2)])) ∧
      (∀ m, m ∉ (["a"] : List String) → alookup ds'.channels m = alookup dsA.channels m) :=
  ingestion_appends_corrected_timestamp.1 dsA ["a"] [5] 1 2 (by simp) (by simp)
    (by intro n hn; simp only [List.mem_singleton] at hn; subst hn; rfl)

/-- C9: the start-index search of `get_data` is a linear scan, not a binary
search: the instrumented search (first conjunct: it computes exactly what
the code's search computes) evaluates the loop guard once per element — on a
channel of `n + 1` samples with timestamps `0..n` and a `startTime` beyond
them all, it performs exactly `n + 1` timestamp comparisons, linear in the
channel length rather than logarithmic. -/
theorem start_index_search_is_linear_scan :
    (∀ (st : ℚ) (l : List Sample) (i : Nat),
        (find_start_steps st l i).1 = find_start_from st l i) ∧
    (∀ n : Nat, find_start_steps ((n : ℚ) + 1) (chain (n + 1)) 0 =
        (.ok none, n + 1)) := by
  constructor
  · exact fun st => find_start_steps_fst st
  · intro n
    have hlen : (chain (n + 1)).length = n + 1 := by
      simp [chain]
    have hne : chain (n + 1) ≠ [] := by
      intro hnil
      rw [hnil] at hlen
      simp at hlen
    have hall : ∀ s ∈ chain (n + 1), s.1 < (n : ℚ) + 1 := by
      intro s hs
      obtain ⟨i, hi, heq⟩ := List.mem_map.mp (by simpa only [chain] using hs)
      have hi' : i < n + 1 := List.mem_range.mp hi
      subst heq
      show (i : ℚ) < (n : ℚ) + 1
      have h1 : (i : ℚ) < ((n + 1 : ℕ) : ℚ) := by exact_mod_cast hi'
      push_cast at h1
      exact h1
    have hsteps := find_start_steps_all_lt ((n : ℚ) + 1) (chain (n + 1)) 0 hne hall
    rw [hsteps, hlen]
